import Mathlib

/-!
Verification of the active-stream manager and tool-adapter core
(`server/services/active_stream.py`, `server/services/databricks_tools.py`).

Modelling conventions:
* Wall-clock timestamps (`time.time()`) are modelled as rationals; every
  operation that reads the clock takes the reading as an explicit argument.
  Successive clock readings are non-decreasing, so a run of the program with
  pairwise-distinct timestamps corresponds to a strictly increasing timestamp
  sequence in the model.
* Python strings are `String`; the Python substring test `pat in s` is the
  executable `strContainsB s pat` below, defined on the character lists.
* Event payload dicts are the inductive `EventData`: the code constructs only
  the three bookkeeping payloads, and the agent producer's payloads are opaque.
* The `asyncio.Task` handle attached to a stream lives in the runtime, not in
  the bookkeeping state; a task-level cancellation materialises as the
  `AgentOutcome.cancelled` outcome of the driver (`run_agent_finish`).
-/

/-! ### Substring containment (Python's `pat in s`) -/

/-- `isPrefixList p l` is true when `p` is an initial segment of `l`. -/
def isPrefixList : List Char → List Char → Bool
  | [], _ => true
  | _ :: _, [] => false
  | a :: as, b :: bs => a == b && isPrefixList as bs

/-- `containsSub p l` is true when `p` occurs contiguously inside `l`. -/
def containsSub : List Char → List Char → Bool
  | pat, [] => isPrefixList pat []
  | pat, c :: rest => isPrefixList pat (c :: rest) || containsSub pat rest

/-- Python's `pat in s` substring test. -/
def strContainsB (s pat : String) : Bool :=
  containsSub pat.data s.data

theorem data_append (a b : String) : (a ++ b).data = a.data ++ b.data := rfl

theorem isPrefixList_self_append (p r : List Char) : isPrefixList p (p ++ r) = true := by
  induction p with
  | nil => simp [isPrefixList]
  | cons a as ih => simp [isPrefixList, ih]

theorem containsSub_self_append (p r : List Char) : containsSub p (p ++ r) = true := by
  cases p with
  | nil =>
    cases r with
    | nil => rfl
    | cons c cs => simp [containsSub, isPrefixList]
  | cons a as =>
    simp [containsSub, isPrefixList, isPrefixList_self_append]

theorem containsSub_self (p : List Char) : containsSub p p = true := by
  have h := containsSub_self_append p []
  simpa using h

theorem containsSub_append_right (p l r : List Char) (h : containsSub p r = true) :
    containsSub p (l ++ r) = true := by
  induction l with
  | nil => simpa using h
  | cons c cs ih => simp [containsSub, ih]

theorem isPrefixList_append (p l r : List Char) (h : isPrefixList p l = true) :
    isPrefixList p (l ++ r) = true := by
  induction p generalizing l with
  | nil => simp [isPrefixList]
  | cons a as ih =>
    cases l with
    | nil => simp [isPrefixList] at h
    | cons b bs =>
      simp only [isPrefixList, Bool.and_eq_true, beq_iff_eq] at h
      simp only [List.cons_append, isPrefixList, Bool.and_eq_true, beq_iff_eq]
      exact ⟨h.1, ih bs h.2⟩

theorem containsSub_nil_pat (s : List Char) : containsSub [] s = true := by
  induction s with
  | nil => rfl
  | cons c cs ih => simp [containsSub, isPrefixList]

theorem containsSub_append_left (p l r : List Char) (h : containsSub p l = true) :
    containsSub p (l ++ r) = true := by
  induction l with
  | nil =>
    cases p with
    | nil => exact containsSub_nil_pat r
    | cons a as => simp [containsSub, isPrefixList] at h
  | cons c cs ih =>
    simp only [containsSub, Bool.or_eq_true] at h
    simp only [List.cons_append, containsSub, Bool.or_eq_true]
    rcases h with h | h
    · exact Or.inl (isPrefixList_append _ _ _ h)
    · exact Or.inr (ih h)

/-! ### Event log and active stream (`ActiveStream`) -/

/-- Payload of one stream event.  The code itself appends only the three
bookkeeping payloads; everything the agent producer appends is opaque. -/
inductive EventData where
  | streamCompleted (is_error : Bool)
  | streamCancelled
  | errorEv (error : String)
  | agent (payload : String)
deriving DecidableEq

/-- A single event from the agent stream. -/
structure StreamEvent where
  timestamp : ℚ
  data : EventData
deriving DecidableEq

/-- Bookkeeping state of one background agent execution. -/
structure ActiveStream where
  execution_id : String
  conversation_id : String
  project_id : String
  events : List StreamEvent
  is_complete : Bool
  is_cancelled : Bool
  error : Option String
  created_at : ℚ
deriving DecidableEq

/-- A freshly constructed `ActiveStream` (dataclass defaults). -/
def newActiveStream (execution_id conversation_id project_id : String)
    (created_at : ℚ) : ActiveStream :=
  { execution_id := execution_id,
    conversation_id := conversation_id,
    project_id := project_id,
    events := [],
    is_complete := false,
    is_cancelled := false,
    error := none,
    created_at := created_at }

/-- `add_event`: append an event carrying the current clock reading `t`. -/
def ActiveStream.add_event (s : ActiveStream) (t : ℚ) (d : EventData) : ActiveStream :=
  { s with events := s.events ++ [{ timestamp := t, data := d }] }

/-- `get_events_since`: all events with timestamp strictly greater than the
cursor, paired with the new cursor (timestamp of the last stored event, or the
unchanged cursor if the log is empty). -/
def ActiveStream.get_events_since (s : ActiveStream) (cursor : ℚ) :
    List EventData × ℚ :=
  ((s.events.filter (fun e => decide (cursor < e.timestamp))).map StreamEvent.data,
   match s.events.getLast? with
   | some e => e.timestamp
   | none => cursor)

/-- `mark_complete`: set the completion flag and append the terminal event. -/
def ActiveStream.mark_complete (s : ActiveStream) (t : ℚ) : ActiveStream :=
  ({ s with is_complete := true }).add_event t (.streamCompleted false)

/-- `mark_error`: record the error, set the completion flag, append the error
event and then the terminal event (two clock readings `t1`, `t2`). -/
def ActiveStream.mark_error (s : ActiveStream) (error : String) (t1 t2 : ℚ) :
    ActiveStream :=
  (({ s with error := some error, is_complete := true }).add_event t1
      (.errorEv error)).add_event t2 (.streamCompleted true)

/-- `cancel`: refuse if already complete or cancelled; otherwise set the
cancellation flag, append `stream.cancelled` then `stream.completed` with
`is_error` false, set the completion flag even, and report success. -/
def ActiveStream.cancel (s : ActiveStream) (t1 t2 : ℚ) : ActiveStream × Bool :=
  if s.is_complete || s.is_cancelled then (s, false)
  else
    let s1 := { s with is_cancelled := true }
    let s2 := (s1.add_event t1 .streamCancelled).add_event t2 (.streamCompleted false)
    ({ s2 with is_complete := true }, true)

/-! ### Background task driver (`start_stream`'s `run_agent`) -/

/-- How the awaited agent coroutine finished: normal return, a cooperative
cancellation signal (`asyncio.CancelledError`), or any other exception with its
class name and text. -/
inductive AgentOutcome where
  | success
  | cancelled
  | failure (excName excText : String)
deriving DecidableEq

/-- The diagnostic message `run_agent` builds for a failed producer, with the
"Stream closed" transport failures reworded. -/
def run_agent_error_msg (excName excText : String) : String :=
  if strContainsB excText "Stream closed" then
    "Agent communication interrupted (" ++ excName ++ "): " ++ excText ++
      ". This may occur when operations take longer than expected."
  else excName ++ ": " ++ excText

/-- The epilogue of `run_agent` in `start_stream`: the state transition the
driver applies to the stream once the awaited producer has finished with the
given outcome.  It is a total function: no exception escapes the task. -/
def run_agent_finish (s : ActiveStream) (o : AgentOutcome) (t1 t2 : ℚ) :
    ActiveStream :=
  match o with
  | .success => s
  | .cancelled =>
    if s.is_complete then s
    else { s with is_cancelled := true, is_complete := true }
  | .failure en et =>
    if s.is_complete then s
    else s.mark_error (run_agent_error_msg en et) t1 t2

/-! ### Operation sequences over one stream (for the reachability invariant) -/

/-- One operation on an `ActiveStream`, as listed in the state invariant:
the public mutators, the read-only poll, and the driver's terminal
transition. -/
inductive StreamOp where
  | addEvent (t : ℚ) (d : EventData)
  | getSince (cursor : ℚ)
  | markComplete (t : ℚ)
  | markError (msg : String) (t1 t2 : ℚ)
  | cancelOp (t1 t2 : ℚ)
  | finishTask (o : AgentOutcome) (t1 t2 : ℚ)

/-- Apply one operation to the stream state. -/
def applyStreamOp (s : ActiveStream) : StreamOp → ActiveStream
  | .addEvent t d => s.add_event t d
  | .getSince _ => s
  | .markComplete t => s.mark_complete t
  | .markError msg t1 t2 => s.mark_error msg t1 t2
  | .cancelOp t1 t2 => (s.cancel t1 t2).1
  | .finishTask o t1 t2 => run_agent_finish s o t1 t2

/-- Run a sequence of operations. -/
def runStreamOps (s : ActiveStream) : List StreamOp → ActiveStream
  | [] => s
  | op :: ops => runStreamOps (applyStreamOp s op) ops

theorem applyStreamOp_preserves_cancel_imp (s : ActiveStream) (op : StreamOp)
    (h : s.is_cancelled = true → s.is_complete = true) :
    (applyStreamOp s op).is_cancelled = true →
      (applyStreamOp s op).is_complete = true := by
  cases op with
  | addEvent t d => exact h
  | getSince c => exact h
  | markComplete t =>
    simp [applyStreamOp, ActiveStream.mark_complete, ActiveStream.add_event]
  | markError msg t1 t2 =>
    simp [applyStreamOp, ActiveStream.mark_error, ActiveStream.add_event]
  | cancelOp t1 t2 =>
    by_cases hg : (s.is_complete || s.is_cancelled) = true
    · simpa [applyStreamOp, ActiveStream.cancel, hg] using h
    · simp [applyStreamOp, ActiveStream.cancel, hg, ActiveStream.add_event]
  | finishTask o t1 t2 =>
    cases o with
    | success => simpa [applyStreamOp, run_agent_finish] using h
    | cancelled =>
      by_cases hc : s.is_complete = true
      · intro _
        simp [applyStreamOp, run_agent_finish, hc]
      · simp [applyStreamOp, run_agent_finish, hc]
    | failure en et =>
      by_cases hc : s.is_complete = true
      · intro _
        simp [applyStreamOp, run_agent_finish, hc]
      · simp [applyStreamOp, run_agent_finish, hc, ActiveStream.mark_error,
          ActiveStream.add_event]

theorem runStreamOps_preserves_cancel_imp (ops : List StreamOp) (s : ActiveStream)
    (h : s.is_cancelled = true → s.is_complete = true) :
    (runStreamOps s ops).is_cancelled = true →
      (runStreamOps s ops).is_complete = true := by
  induction ops generalizing s with
  | nil => simpa [runStreamOps] using h
  | cons op ops ih =>
    simpa [runStreamOps] using
      ih (applyStreamOp s op) (applyStreamOp_preserves_cancel_imp s op h)

/-! ### Claim theorems: stream state machine -/

/-- Claim C2: on a stream with neither terminal flag set, `cancel` returns
true, appends exactly `stream.cancelled` then `stream.completed` with
`is_error` false, and sets both flags; on a stream with either flag set it
returns false and leaves the state untouched. -/
theorem cancel_spec (s : ActiveStream) (t1 t2 : ℚ) :
    (s.is_complete = false → s.is_cancelled = false →
      (s.cancel t1 t2).2 = true ∧
      (s.cancel t1 t2).1.events
        = s.events ++ [{ timestamp := t1, data := .streamCancelled },
                       { timestamp := t2, data := .streamCompleted false }] ∧
      (s.cancel t1 t2).1.is_cancelled = true ∧
      (s.cancel t1 t2).1.is_complete = true) ∧
    ((s.is_complete = true ∨ s.is_cancelled = true) →
      s.cancel t1 t2 = (s, false)) := by
  constructor
  · intro hc hk
    simp [ActiveStream.cancel, hc, hk, ActiveStream.add_event]
  · intro h
    rcases h with h | h <;> simp [ActiveStream.cancel, h]

/-- Claim C2 witness: a fresh stream is cancellable and an already-complete
stream refuses cancellation. -/
theorem cancel_spec_witness :
    (((newActiveStream "e" "c" "p" 0).cancel 1 2).2 = true ∧
      ((newActiveStream "e" "c" "p" 0).cancel 1 2).1.events
        = (newActiveStream "e" "c" "p" 0).events ++
            [{ timestamp := 1, data := .streamCancelled },
             { timestamp := 2, data := .streamCompleted false }] ∧
      ((newActiveStream "e" "c" "p" 0).cancel 1 2).1.is_cancelled = true ∧
      ((newActiveStream "e" "c" "p" 0).cancel 1 2).1.is_complete = true) ∧
    ((newActiveStream "e" "c" "p" 0).mark_complete 1).cancel 2 3
      = ((newActiveStream "e" "c" "p" 0).mark_complete 1, false) :=
  ⟨(cancel_spec (newActiveStream "e" "c" "p" 0) 1 2).1 rfl rfl,
   (cancel_spec ((newActiveStream "e" "c" "p" 0).mark_complete 1) 2 3).2
     (Or.inl rfl)⟩

/-- Claim C3: `mark_error msg` records the message in the error field, sets the
completion flag, and appends exactly the `error` event carrying `msg`
immediately followed by `stream.completed` with `is_error` true. -/
theorem mark_error_spec (s : ActiveStream) (msg : String) (t1 t2 : ℚ) :
    (s.mark_error msg t1 t2).error = some msg ∧
    (s.mark_error msg t1 t2).is_complete = true ∧
    (s.mark_error msg t1 t2).events
      = s.events ++ [{ timestamp := t1, data := .errorEv msg },
                     { timestamp := t2, data := .streamCompleted true }] := by
  simp [ActiveStream.mark_error, ActiveStream.add_event]

/-- Claim C9: a cooperative-cancellation signal reaching the driver of a
not-yet-terminal stream sets both flags and appends no event at all. -/
theorem task_cancellation_flags_only (s : ActiveStream) (t1 t2 : ℚ)
    (h : s.is_complete = false) :
    run_agent_finish s .cancelled t1 t2
      = { s with is_cancelled := true, is_complete := true } ∧
    (run_agent_finish s .cancelled t1 t2).events = s.events := by
  simp [run_agent_finish, h]

/-- Claim C9 witness: on a fresh stream the cancellation outcome sets the two
flags and leaves the event log empty. -/
theorem task_cancellation_flags_only_witness :
    run_agent_finish (newActiveStream "e" "c" "p" 0) .cancelled 1 2
      = { newActiveStream "e" "c" "p" 0 with
            is_cancelled := true, is_complete := true } ∧
    (run_agent_finish (newActiveStream "e" "c" "p" 0) .cancelled 1 2).events
      = (newActiveStream "e" "c" "p" 0).events :=
  task_cancellation_flags_only (newActiveStream "e" "c" "p" 0) 1 2 rfl

/-- Claim C8: on every stream reachable from a freshly created one by the
stream operations and the driver's terminal transitions, the cancellation flag
implies the completion flag. -/
theorem cancelled_implies_complete (eid cid pid : String) (tC : ℚ)
    (ops : List StreamOp)
    (h : (runStreamOps (newActiveStream eid cid pid tC) ops).is_cancelled = true) :
    (runStreamOps (newActiveStream eid cid pid tC) ops).is_complete = true :=
  runStreamOps_preserves_cancel_imp ops (newActiveStream eid cid pid tC)
    (fun hk => hk) h

/-- Claim C8 witness: after an explicit cancellation the completion flag is
set. -/
theorem cancelled_implies_complete_witness :
    (runStreamOps (newActiveStream "e" "c" "p" 0) [.cancelOp 1 2]).is_complete
      = true :=
  cancelled_implies_complete "e" "c" "p" 0 [.cancelOp 1 2] rfl

/-! ### Claim C4: the driver's failure path -/

/-- Claim C4: when the producer fails with any exception other than the
cooperative-cancellation signal and the stream is not already complete, the
driver (a total function — nothing escapes the task) records via `mark_error`
a message containing the exception kind and text, and a text matching the
"Stream closed" pattern yields the reworded "communication interrupted"
explanation. -/
theorem background_failure_contained (s : ActiveStream) (en et : String)
    (t1 t2 : ℚ) (h : s.is_complete = false) :
    (run_agent_finish s (.failure en et) t1 t2).is_complete = true ∧
    (run_agent_finish s (.failure en et) t1 t2).error
      = some (run_agent_error_msg en et) ∧
    (run_agent_finish s (.failure en et) t1 t2).events
      = s.events ++
          [{ timestamp := t1, data := .errorEv (run_agent_error_msg en et) },
           { timestamp := t2, data := .streamCompleted true }] ∧
    strContainsB (run_agent_error_msg en et) en = true ∧
    strContainsB (run_agent_error_msg en et) et = true ∧
    (strContainsB et "Stream closed" = true →
      strContainsB (run_agent_error_msg en et) "communication interrupted"
        = true) := by
  refine ⟨?_, ?_, ?_, ?_, ?_, ?_⟩
  · simp [run_agent_finish, h, ActiveStream.mark_error, ActiveStream.add_event]
  · simp [run_agent_finish, h, ActiveStream.mark_error, ActiveStream.add_event]
  · simp [run_agent_finish, h, ActiveStream.mark_error, ActiveStream.add_event]
  · simp only [strContainsB, run_agent_error_msg]
    split
    · simp only [data_append, List.append_assoc]
      exact containsSub_append_right _ _ _ (containsSub_self_append _ _)
    · simp only [data_append, List.append_assoc]
      exact containsSub_self_append _ _
  · simp only [strContainsB, run_agent_error_msg]
    split
    · simp only [data_append, List.append_assoc]
      exact containsSub_append_right _ _ _ (containsSub_append_right _ _ _
        (containsSub_append_right _ _ _ (containsSub_self_append _ _)))
    · simp only [data_append, List.append_assoc]
      exact containsSub_append_right _ _ _ (containsSub_append_right _ _ _
        (containsSub_self _))
  · intro hb
    simp only [strContainsB, run_agent_error_msg]
    split
    · simp only [data_append, List.append_assoc]
      exact containsSub_append_left _ _ _ (by decide)
    · next hcond => exact absurd hb hcond

/-- Claim C4 witness: a producer failure whose text matches the "Stream
closed" pattern is recorded with the reworded explanation. -/
theorem background_failure_contained_witness :
    (run_agent_finish (newActiveStream "e" "c" "p" 0)
        (.failure "RuntimeError" "Stream closed by peer") 1 2).error
      = some (run_agent_error_msg "RuntimeError" "Stream closed by peer") ∧
    strContainsB (run_agent_error_msg "RuntimeError" "Stream closed by peer")
        "communication interrupted" = true :=
  ⟨(background_failure_contained (newActiveStream "e" "c" "p" 0) "RuntimeError"
      "Stream closed by peer" 1 2 rfl).2.1,
   (background_failure_contained (newActiveStream "e" "c" "p" 0) "RuntimeError"
      "Stream closed by peer" 1 2 rfl).2.2.2.2.2 (by decide)⟩

/-! ### Tool invocation adapter (`_make_wrapper` in `databricks_tools.py`) -/

/-- One block of the result envelope's `content` list. -/
structure ContentBlock where
  type : String
  text : String
deriving DecidableEq

/-- The envelope the wrapper returns (`is_error` is absent on success,
modelled as `false`). -/
structure ToolResponse where
  content : List ContentBlock
  is_error : Bool
deriving DecidableEq

/-- How the wrapped call finished: normal result (already serialized by
`json.dumps`), cooperative cancellation, timeout, or any other exception. -/
inductive ToolOutcome where
  | success (result_str : String)
  | cancelled
  | timeout (msg : String)
  | failure (excName excText : String)

/-- The wrapper's cancellation diagnostic (`elapsedStr` stands for the
formatted elapsed seconds). -/
def cancel_error_msg (elapsedStr : String) : String :=
  "Tool execution cancelled after " ++ elapsedStr ++
    "s (likely due to stream timeout)"

/-- The wrapper's timeout diagnostic. -/
def timeout_error_msg (elapsedStr msg : String) : String :=
  "Tool execution timed out after " ++ elapsedStr ++ "s: " ++ msg

/-- The wrapper's generic-failure text. -/
def failure_text (excName excText elapsedStr : String) : String :=
  "Error (" ++ excName ++ "): " ++ excText ++
    "\n\nThis error occurred after " ++ elapsedStr ++
    "s. If this is a long-running operation, it may have exceeded the stream timeout (50s)."

/-- The envelope `wrapper` returns for each possible outcome. -/
def wrapper_respond (o : ToolOutcome) (elapsedStr : String) : ToolResponse :=
  match o with
  | .success result_str =>
    { content := [{ type := "text", text := result_str }], is_error := false }
  | .cancelled =>
    { content := [{ type := "text",
                    text := "Error: " ++ cancel_error_msg elapsedStr }],
      is_error := true }
  | .timeout msg =>
    { content := [{ type := "text",
                    text := "Error: " ++ timeout_error_msg elapsedStr msg }],
      is_error := true }
  | .failure en et =>
    { content := [{ type := "text", text := failure_text en et elapsedStr }],
      is_error := true }

/-- Claim C6: the wrapper is total on outcomes, always returns the one-block
text envelope, marks exactly the non-success outcomes as errors, and its
diagnostics name the cause: cancellation and elapsed time, timeout, or the
exception kind and text with elapsed time and the stream-timeout hint. -/
theorem tool_wrapper_envelope (o : ToolOutcome) (elapsedStr : String) :
    ∃ txt : String,
      (wrapper_respond o elapsedStr).content = [{ type := "text", text := txt }] ∧
      (match o with
       | .success r =>
         (wrapper_respond o elapsedStr).is_error = false ∧ txt = r
       | .cancelled =>
         (wrapper_respond o elapsedStr).is_error = true ∧
         strContainsB txt "cancelled" = true ∧
         strContainsB txt elapsedStr = true
       | .timeout m =>
         (wrapper_respond o elapsedStr).is_error = true ∧
         strContainsB txt "timed out" = true ∧
         strContainsB txt m = true ∧
         strContainsB txt elapsedStr = true
       | .failure en et =>
         (wrapper_respond o elapsedStr).is_error = true ∧
         strContainsB txt en = true ∧
         strContainsB txt et = true ∧
         strContainsB txt elapsedStr = true ∧
         strContainsB txt "exceeded the stream timeout" = true) := by
  cases o with
  | success r => exact ⟨r, rfl, rfl, rfl⟩
  | cancelled =>
    refine ⟨"Error: " ++ cancel_error_msg elapsedStr, rfl, rfl, ?_, ?_⟩
    · simp only [strContainsB, cancel_error_msg, data_append, List.append_assoc]
      exact containsSub_append_right _ _ _ (containsSub_append_left _ _ _
        (by decide))
    · simp only [strContainsB, cancel_error_msg, data_append, List.append_assoc]
      exact containsSub_append_right _ _ _ (containsSub_append_right _ _ _
        (containsSub_self_append _ _))
  | timeout m =>
    refine ⟨"Error: " ++ timeout_error_msg elapsedStr m, rfl, rfl, ?_, ?_, ?_⟩
    · simp only [strContainsB, timeout_error_msg, data_append, List.append_assoc]
      exact containsSub_append_right _ _ _ (containsSub_append_left _ _ _
        (by decide))
    · simp only [strContainsB, timeout_error_msg, data_append, List.append_assoc]
      exact containsSub_append_right _ _ _ (containsSub_append_right _ _ _
        (containsSub_append_right _ _ _ (containsSub_append_right _ _ _
          (containsSub_self _))))
    · simp only [strContainsB, timeout_error_msg, data_append, List.append_assoc]
      exact containsSub_append_right _ _ _ (containsSub_append_right _ _ _
        (containsSub_self_append _ _))
  | failure en et =>
    refine ⟨failure_text en et elapsedStr, rfl, rfl, ?_, ?_, ?_, ?_⟩
    · simp only [strContainsB, failure_text, data_append, List.append_assoc]
      exact containsSub_append_right _ _ _ (containsSub_self_append _ _)
    · simp only [strContainsB, failure_text, data_append, List.append_assoc]
      exact containsSub_append_right _ _ _ (containsSub_append_right _ _ _
        (containsSub_append_right _ _ _ (containsSub_self_append _ _)))
    · simp only [strContainsB, failure_text, data_append, List.append_assoc]
      exact containsSub_append_right _ _ _ (containsSub_append_right _ _ _
        (containsSub_append_right _ _ _ (containsSub_append_right _ _ _
          (containsSub_append_right _ _ _ (containsSub_self_append _ _)))))
    · simp only [strContainsB, failure_text, data_append, List.append_assoc]
      exact containsSub_append_right _ _ _ (containsSub_append_right _ _ _
        (containsSub_append_right _ _ _ (containsSub_append_right _ _ _
          (containsSub_append_right _ _ _ (containsSub_append_right _ _ _
            (by decide))))))

/-! ### Tool adapter input normalization -/

/-- Python's `str.strip()` whitespace set. -/
def isPyWhitespace (c : Char) : Bool :=
  c == ' ' || c == '\t' || c == '\n' || c == '\r' || c == '\x0b' || c == '\x0c'

/-- Python's `str.strip()`. -/
def pyStrip (s : String) : String :=
  { data := ((s.data.dropWhile isPyWhitespace).reverse.dropWhile
      isPyWhitespace).reverse }

/-- `value.strip().startswith(('[', '\x7b'))`: the stripped text begins with a
bracket or brace. -/
def looksStructured (s : String) : Bool :=
  match (pyStrip s).data with
  | [] => false
  | c :: _ => c == '[' || c == '\x7b'

/-- A Python value as the adapter sees it: text, numbers, flags, `None`,
sequences and mappings. -/
inductive PyVal where
  | str (s : String)
  | int (n : Int)
  | bool (b : Bool)
  | pynone
  | list (xs : List PyVal)
  | dict (kvs : List (String × PyVal))

/-- Normalization of one supplied argument value, parametrised by the external
JSON decoder (`json.loads`, `none` standing for `JSONDecodeError`): a string
that looks structured is decoded, keeping the raw string on decode failure;
everything else passes through. -/
def parse_arg_value (json_loads : String → Option PyVal) (v : PyVal) : PyVal :=
  match v with
  | .str s =>
    if looksStructured s then
      match json_loads s with
      | some j => j
      | none => .str s
    else .str s
  | v => v

/-- The `parsed_args` mapping the wrapper builds before invoking the
callable. -/
def parse_args (json_loads : String → Option PyVal)
    (args : List (String × PyVal)) : List (String × PyVal) :=
  args.map (fun kv => (kv.1, parse_arg_value json_loads kv.2))

/-- Claim C7: every string argument whose stripped text begins with a bracket
or brace is JSON-decoded before the call (keeping the raw string when decoding
fails); all other values pass through unchanged; and a decodable "[1,2,3]"
reaches the callable as the decoder's 3-element sequence. -/
theorem input_normalization_spec (f : String → Option PyVal)
    (args : List (String × PyVal)) :
    (∀ (i : ℕ) (k s : String) (j : PyVal),
        args[i]? = some (k, PyVal.str s) → looksStructured s = true →
        f s = some j → (parse_args f args)[i]? = some (k, j)) ∧
    (∀ (i : ℕ) (k s : String),
        args[i]? = some (k, PyVal.str s) → looksStructured s = true →
        f s = none → (parse_args f args)[i]? = some (k, PyVal.str s)) ∧
    (∀ (i : ℕ) (k s : String),
        args[i]? = some (k, PyVal.str s) → looksStructured s = false →
        (parse_args f args)[i]? = some (k, PyVal.str s)) ∧
    (∀ (i : ℕ) (k : String) (v : PyVal),
        args[i]? = some (k, v) → (∀ s, v ≠ PyVal.str s) →
        (parse_args f args)[i]? = some (k, v)) ∧
    (∀ j, f "[1,2,3]" = some j →
        parse_arg_value f (PyVal.str "[1,2,3]") = j) := by
  refine ⟨?_, ?_, ?_, ?_, ?_⟩
  · intro i k s j hi hl hf
    simp [parse_args, List.getElem?_map, hi, parse_arg_value, hl, hf]
  · intro i k s hi hl hf
    simp [parse_args, List.getElem?_map, hi, parse_arg_value, hl, hf]
  · intro i k s hi hl
    simp [parse_args, List.getElem?_map, hi, parse_arg_value, hl]
  · intro i k v hi hv
    cases v with
    | str s => exact absurd rfl (hv s)
    | int n => simp [parse_args, List.getElem?_map, hi, parse_arg_value]
    | bool b => simp [parse_args, List.getElem?_map, hi, parse_arg_value]
    | pynone => simp [parse_args, List.getElem?_map, hi, parse_arg_value]
    | list xs => simp [parse_args, List.getElem?_map, hi, parse_arg_value]
    | dict kvs => simp [parse_args, List.getElem?_map, hi, parse_arg_value]
  · intro j hf
    simp [parse_arg_value, hf,
      show looksStructured "[1,2,3]" = true from by decide]

/-- A demonstration decoder for the concrete scenario of claim C7. -/
def demoLoads : String → Option PyVal :=
  fun s =>
    if s = "[1,2,3]" then some (.list [.int 1, .int 2, .int 3]) else none

/-- Claim C7 witness: the argument mapping with `"rows"` bound to the string
`"[1,2,3]"` reaches the callable with a 3-element sequence. -/
theorem input_normalization_witness :
    (parse_args demoLoads [("rows", PyVal.str "[1,2,3]")])[0]?
      = some ("rows", PyVal.list [PyVal.int 1, PyVal.int 2, PyVal.int 3]) :=
  (input_normalization_spec demoLoads [("rows", PyVal.str "[1,2,3]")]).1 0
    "rows" "[1,2,3]" (PyVal.list [PyVal.int 1, PyVal.int 2, PyVal.int 3]) rfl
    (by decide) (by simp [demoLoads])

/-! ### Claim C10: same-timestamp boundary behaviour -/

/-- Claim C10: two events appended at the identical timestamp are both
returned for every cursor strictly below that timestamp, neither is returned
once the cursor reaches it, and the new cursor is that timestamp — cursor
exclusivity is a boundary comparison, not a sequence index. -/
theorem same_timestamp_boundary (eid cid pid : String) (tC t : ℚ)
    (d1 d2 : EventData) (c : ℚ) :
    (c < t →
      ((((newActiveStream eid cid pid tC).add_event t d1).add_event t
          d2).get_events_since c).1 = [d1, d2]) ∧
    (t ≤ c →
      ((((newActiveStream eid cid pid tC).add_event t d1).add_event t
          d2).get_events_since c).1 = []) ∧
    ((((newActiveStream eid cid pid tC).add_event t d1).add_event t
        d2).get_events_since c).2 = t := by
  refine ⟨?_, ?_, ?_⟩
  · intro hc
    simp [newActiveStream, ActiveStream.add_event, ActiveStream.get_events_since,
      hc]
  · intro hc
    simp [newActiveStream, ActiveStream.add_event, ActiveStream.get_events_since,
      not_lt.mpr hc]
  · simp [newActiveStream, ActiveStream.add_event, ActiveStream.get_events_since]

/-- Claim C10 witness: with both events at timestamp 1, cursor 0 sees both and
cursor 1 sees neither. -/
theorem same_timestamp_boundary_witness :
    ((((newActiveStream "e" "c" "p" 0).add_event 1 (.agent "x")).add_event 1
        (.agent "y")).get_events_since 0).1 = [.agent "x", .agent "y"] ∧
    ((((newActiveStream "e" "c" "p" 0).add_event 1 (.agent "x")).add_event 1
        (.agent "y")).get_events_since 1).1 = [] :=
  ⟨(same_timestamp_boundary "e" "c" "p" 0 1 (.agent "x") (.agent "y") 0).1
      (by norm_num),
   (same_timestamp_boundary "e" "c" "p" 0 1 (.agent "x") (.agent "y") 1).2.1
      le_rfl⟩

/-! ### Execution registry (`ActiveStreamManager`) -/

/-- Registry lookup (`self._streams.get(execution_id)`): the registry is a
key-unique association list in insertion order, modelling a Python dict. -/
def streamsLookup : List (String × ActiveStream) → String → Option ActiveStream
  | [], _ => none
  | p :: rest, eid => if p.1 == eid then some p.2 else streamsLookup rest eid

/-- Dict assignment `self._streams[execution_id] = stream`: replace in place
if the key exists, else append. -/
def dictInsert (m : List (String × ActiveStream)) (k : String)
    (v : ActiveStream) : List (String × ActiveStream) :=
  if m.any (fun p => p.1 == k) then
    m.map (fun p => if p.1 == k then (k, v) else p)
  else m ++ [(k, v)]

/-- Streams older than this are cleaned up (5 minutes). -/
def CLEANUP_THRESHOLD_SECONDS : ℚ := 300

/-- `_cleanup_old_streams`: remove every entry that is complete and whose age
at the sweep's clock reading exceeds the threshold. -/
def cleanup_old_streams (now : ℚ) (m : List (String × ActiveStream)) :
    List (String × ActiveStream) :=
  m.filter (fun p =>
    !(p.2.is_complete && decide (now - p.2.created_at > CLEANUP_THRESHOLD_SECONDS)))

/-- `create_stream`: construct a fresh stream (the `uuid4` id is modelled as
the parameter `execution_id`, fresh by hypothesis where it matters), store it,
then run the cleanup sweep.  `tCreate` is the clock reading at construction
and `tNow` the sweep's reading. -/
def create_stream (m : List (String × ActiveStream))
    (project_id conversation_id execution_id : String) (tCreate tNow : ℚ) :
    List (String × ActiveStream) :=
  cleanup_old_streams tNow
    (dictInsert m execution_id
      (newActiveStream execution_id conversation_id project_id tCreate))

theorem streamsLookup_none_of_not_mem (m : List (String × ActiveStream))
    (k : String) (h : k ∉ m.map Prod.fst) : streamsLookup m k = none := by
  induction m with
  | nil => rfl
  | cons p rest ih =>
    simp only [List.map_cons, List.mem_cons] at h
    push_neg at h
    have h1 : (p.1 == k) = false := beq_eq_false_iff_ne.mpr fun he => h.1 he.symm
    simp [streamsLookup, h1, ih h.2]

theorem not_mem_of_streamsLookup_none (m : List (String × ActiveStream))
    (k : String) (h : streamsLookup m k = none) : k ∉ m.map Prod.fst := by
  induction m with
  | nil => simp
  | cons p rest ih =>
    by_cases hb : p.1 = k
    · simp [streamsLookup, hb] at h
    · have hb' : (p.1 == k) = false := beq_eq_false_iff_ne.mpr hb
      simp only [streamsLookup, hb', Bool.false_eq_true, if_false] at h
      simp only [List.map_cons, List.mem_cons]
      rintro (h1 | h2)
      · exact hb h1.symm
      · exact ih h h2

theorem streamsLookup_append_left (m l : List (String × ActiveStream))
    (k : String) (v : ActiveStream) (h : streamsLookup m k = some v) :
    streamsLookup (m ++ l) k = some v := by
  induction m with
  | nil => simp [streamsLookup] at h
  | cons p rest ih =>
    by_cases hb : p.1 = k
    · have h' : p.2 = v := by simpa [streamsLookup, hb] using h
      simp [streamsLookup, hb, h']
    · have hb' : (p.1 == k) = false := beq_eq_false_iff_ne.mpr hb
      simp only [streamsLookup, hb', Bool.false_eq_true, if_false] at h
      simp only [List.cons_append, streamsLookup, hb', Bool.false_eq_true,
        if_false]
      exact ih h

theorem streamsLookup_append_right (m l : List (String × ActiveStream))
    (k : String) (h : streamsLookup m k = none) :
    streamsLookup (m ++ l) k = streamsLookup l k := by
  induction m with
  | nil => simp
  | cons p rest ih =>
    by_cases hb : p.1 = k
    · simp [streamsLookup, hb] at h
    · have hb' : (p.1 == k) = false := beq_eq_false_iff_ne.mpr hb
      simp only [streamsLookup, hb', Bool.false_eq_true, if_false] at h
      simp only [List.cons_append, streamsLookup, hb', Bool.false_eq_true,
        if_false]
      exact ih h

theorem streamsLookup_filter_none (m : List (String × ActiveStream))
    (q : String × ActiveStream → Bool) (k : String)
    (h : streamsLookup m k = none) : streamsLookup (m.filter q) k = none := by
  induction m with
  | nil => simp [streamsLookup]
  | cons p rest ih =>
    by_cases hb : p.1 = k
    · simp [streamsLookup, hb] at h
    · have hb' : (p.1 == k) = false := beq_eq_false_iff_ne.mpr hb
      simp only [streamsLookup, hb', Bool.false_eq_true, if_false] at h
      cases hq : q p with
      | false => simp [List.filter_cons, hq, ih h]
      | true => simp [List.filter_cons, hq, streamsLookup, hb', ih h]

theorem streamsLookup_filter (m : List (String × ActiveStream))
    (q : String × ActiveStream → Bool) (k : String) (v : ActiveStream)
    (hnd : (m.map Prod.fst).Nodup) (h : streamsLookup m k = some v) :
    streamsLookup (m.filter q) k = if q (k, v) then some v else none := by
  induction m with
  | nil => simp [streamsLookup] at h
  | cons p rest ih =>
    obtain ⟨p1, p2⟩ := p
    simp only [List.map_cons, List.nodup_cons] at hnd
    by_cases hb : p1 = k
    · subst hb
      have hv : p2 = v := by simpa [streamsLookup] using h
      subst hv
      cases hq : q (p1, p2) with
      | true => simp [List.filter_cons, hq, streamsLookup]
      | false =>
        have hrest : streamsLookup rest p1 = none :=
          streamsLookup_none_of_not_mem rest p1 hnd.1
        simp [List.filter_cons, hq,
          streamsLookup_filter_none rest q p1 hrest]

    · have hb' : (p1 == k) = false := beq_eq_false_iff_ne.mpr hb
      simp only [streamsLookup, hb', Bool.false_eq_true, if_false] at h
      cases hq : q (p1, p2) with
      | true =>
        simp only [List.filter_cons, hq, if_true, streamsLookup, hb',
          Bool.false_eq_true, if_false]
        exact ih hnd.2 h
      | false =>
        simp only [List.filter_cons, hq, Bool.false_eq_true, if_false]
        exact ih hnd.2 h

theorem any_key_false_of_lookup_none (m : List (String × ActiveStream))
    (k : String) (h : streamsLookup m k = none) :
    m.any (fun p => p.1 == k) = false := by
  induction m with
  | nil => rfl
  | cons p rest ih =>
    by_cases hb : p.1 = k
    · simp [streamsLookup, hb] at h
    · have hb' : (p.1 == k) = false := beq_eq_false_iff_ne.mpr hb
      simp only [streamsLookup, hb', Bool.false_eq_true, if_false] at h
      simp [List.any_cons, hb', ih h]

theorem dictInsert_fresh (m : List (String × ActiveStream)) (k : String)
    (v : ActiveStream) (h : streamsLookup m k = none) :
    dictInsert m k v = m ++ [(k, v)] := by
  simp [dictInsert, any_key_false_of_lookup_none m k h]

/-- Claim C5: after a `create_stream` call (fresh id, key-unique registry),
every previously registered execution with completion flag true and age over
the 300-second threshold is absent, every one with age at most the threshold
or completion flag false is still present unchanged, and the new stream is
registered. -/
theorem registry_cleanup_on_create (m : List (String × ActiveStream))
    (pid cid eid : String) (tCreate tNow : ℚ)
    (hnd : (m.map Prod.fst).Nodup)
    (hfresh : streamsLookup m eid = none) :
    (∀ k v, streamsLookup m k = some v →
      (v.is_complete = true ∧ tNow - v.created_at > CLEANUP_THRESHOLD_SECONDS →
        streamsLookup (create_stream m pid cid eid tCreate tNow) k = none) ∧
      ((v.is_complete = false ∨
          tNow - v.created_at ≤ CLEANUP_THRESHOLD_SECONDS) →
        streamsLookup (create_stream m pid cid eid tCreate tNow) k = some v)) ∧
    streamsLookup (create_stream m pid cid eid tCreate tNow) eid
      = some (newActiveStream eid cid pid tCreate) := by
  have hins : dictInsert m eid (newActiveStream eid cid pid tCreate)
      = m ++ [(eid, newActiveStream eid cid pid tCreate)] :=
    dictInsert_fresh m eid _ hfresh
  have hndM : ((m ++ [(eid, newActiveStream eid cid pid tCreate)]).map
      Prod.fst).Nodup := by
    simp only [List.map_append, List.map_cons, List.map_nil]
    rw [List.nodup_append]
    refine ⟨hnd, by simp, fun a ha hb => ?_⟩
    have : a = eid := by simpa using hb
    exact not_mem_of_streamsLookup_none m eid hfresh (this ▸ ha)
  constructor
  · intro k v hk
    have hkM : streamsLookup (m ++ [(eid, newActiveStream eid cid pid tCreate)])
        k = some v := streamsLookup_append_left m _ k v hk
    have hfil := streamsLookup_filter
      (m ++ [(eid, newActiveStream eid cid pid tCreate)])
      (fun p => !(p.2.is_complete &&
        decide (tNow - p.2.created_at > CLEANUP_THRESHOLD_SECONDS)))
      k v hndM hkM
    constructor
    · rintro ⟨hc, hage⟩
      simp only [create_stream, hins, cleanup_old_streams]
      rw [hfil]
      simp [hc, hage]
    · intro hOr
      simp only [create_stream, hins, cleanup_old_streams]
      rw [hfil]
      rcases hOr with hc | hage
      · simp [hc]
      · simp [not_lt.mpr hage]
  · have hM : streamsLookup (m ++ [(eid, newActiveStream eid cid pid tCreate)])
        eid = some (newActiveStream eid cid pid tCreate) := by
      rw [streamsLookup_append_right m _ eid hfresh]
      simp [streamsLookup]
    have hfil := streamsLookup_filter
      (m ++ [(eid, newActiveStream eid cid pid tCreate)])
      (fun p => !(p.2.is_complete &&
        decide (tNow - p.2.created_at > CLEANUP_THRESHOLD_SECONDS)))
      eid _ hndM hM
    simp only [create_stream, hins, cleanup_old_streams]
    rw [hfil]
    simp [newActiveStream]

/-- A two-entry registry for the claim C5 witness: a stale completed stream
and a young completed stream. -/
def demoRegistry : List (String × ActiveStream) :=
  [("old", { newActiveStream "old" "c" "p" 0 with is_complete := true }),
   ("young", { newActiveStream "young" "c" "p" 350 with is_complete := true })]

/-- Claim C5 witness: at sweep time 400 the completed stream created at 0 is
gone, the one created at 350 survives, and the new stream is registered. -/
theorem registry_cleanup_on_create_witness :
    streamsLookup (create_stream demoRegistry "p" "c" "fresh" 399 400) "old"
      = none ∧
    streamsLookup (create_stream demoRegistry "p" "c" "fresh" 399 400) "young"
      = some { newActiveStream "young" "c" "p" 350 with is_complete := true } ∧
    streamsLookup (create_stream demoRegistry "p" "c" "fresh" 399 400) "fresh"
      = some (newActiveStream "fresh" "c" "p" 399) :=
  ⟨((registry_cleanup_on_create demoRegistry "p" "c" "fresh" 399 400
      (by decide) rfl).1 "old" _ rfl).1
        ⟨rfl, by norm_num [CLEANUP_THRESHOLD_SECONDS, newActiveStream]⟩,
   ((registry_cleanup_on_create demoRegistry "p" "c" "fresh" 399 400
      (by decide) rfl).1 "young" _ rfl).2
        (Or.inr (by norm_num [CLEANUP_THRESHOLD_SECONDS, newActiveStream])),
   (registry_cleanup_on_create demoRegistry "p" "c" "fresh" 399 400
      (by decide) rfl).2⟩

/-! ### Claim C1: cursor pagination over append/poll traces -/

/-- One step of a polling client's interaction with one stream: the producer
appends an event at clock reading `t`, or the client polls, passing back the
cursor it last received. -/
inductive PollOp where
  | append (t : ℚ) (d : EventData)
  | poll

/-- A client session: the stream, the cursor the client last received, and
everything the client has been handed so far. -/
structure PollState where
  stream : ActiveStream
  cursor : ℚ
  delivered : List EventData

/-- Apply one trace step. -/
def stepPoll (st : PollState) : PollOp → PollState
  | .append t d => { st with stream := st.stream.add_event t d }
  | .poll =>
    { st with
        cursor := (st.stream.get_events_since st.cursor).2,
        delivered := st.delivered ++ (st.stream.get_events_since st.cursor).1 }

/-- Run a whole trace. -/
def runPoll (st : PollState) : List PollOp → PollState
  | [] => st
  | op :: ops => runPoll (stepPoll st op) ops

/-- The clock readings of the appends of a trace, in order. -/
def appendTimes : List PollOp → List ℚ
  | [] => []
  | .append t _ :: ops => t :: appendTimes ops
  | .poll :: ops => appendTimes ops

/-- The payloads of the appends of a trace, in order. -/
def appendDatas : List PollOp → List EventData
  | [] => []
  | .append _ d :: ops => d :: appendDatas ops
  | .poll :: ops => appendDatas ops

/-- Run a trace against a freshly created stream and the default cursor 0. -/
def runPollFrom (eid cid pid : String) (tC : ℚ) (ops : List PollOp) : PollState :=
  runPoll { stream := newActiveStream eid cid pid tC, cursor := 0,
            delivered := [] } ops

/-- Session invariant: the event log splits into a delivered prefix (all at or
below the cursor) and a pending suffix (all above it), timestamps are strictly
increasing, and the cursor is 0 or one of the stored timestamps. -/
structure PollInv (st : PollState) : Prop where
  log_split : ∃ done pending,
    st.stream.events = done ++ pending ∧
    st.delivered = done.map StreamEvent.data ∧
    (∀ e ∈ done, e.timestamp ≤ st.cursor) ∧
    (∀ e ∈ pending, st.cursor < e.timestamp)
  sorted : (st.stream.events.map StreamEvent.timestamp).Pairwise (· < ·)
  cursor_src : st.cursor = 0 ∨
    st.cursor ∈ st.stream.events.map StreamEvent.timestamp

theorem filter_decide_eq_nil (l : List StreamEvent) (c : ℚ)
    (h : ∀ e ∈ l, e.timestamp ≤ c) :
    l.filter (fun e => decide (c < e.timestamp)) = [] := by
  induction l with
  | nil => rfl
  | cons a l ih =>
    have ha : ¬ c < a.timestamp := not_lt.mpr (h a (List.mem_cons_self a l))
    simp [List.filter_cons, ha,
      ih (fun e he => h e (List.mem_cons_of_mem a he))]

theorem filter_decide_eq_self (l : List StreamEvent) (c : ℚ)
    (h : ∀ e ∈ l, c < e.timestamp) :
    l.filter (fun e => decide (c < e.timestamp)) = l := by
  induction l with
  | nil => rfl
  | cons a l ih =>
    simp [List.filter_cons, h a (List.mem_cons_self a l),
      ih (fun e he => h e (List.mem_cons_of_mem a he))]

theorem getLast?_mem_own {α : Type} (l : List α) (a : α)
    (h : l.getLast? = some a) : a ∈ l := by
  induction l with
  | nil => simp at h
  | cons b l ih =>
    cases l with
    | nil =>
      have hb : b = a := by simpa using h
      simp [hb]
    | cons c l' =>
      rw [List.getLast?_cons_cons] at h
      exact List.mem_cons_of_mem b (ih h)

theorem getLast?_some_of_ne_nil {α : Type} (l : List α) (h : l ≠ []) :
    ∃ a, l.getLast? = some a := by
  induction l with
  | nil => exact absurd rfl h
  | cons a l ih =>
    cases l with
    | nil => exact ⟨a, rfl⟩
    | cons b l' =>
      obtain ⟨x, hx⟩ := ih (by simp)
      exact ⟨x, by rw [List.getLast?_cons_cons]; exact hx⟩

theorem timestamps_le_getLast (l : List StreamEvent)
    (hs : (l.map StreamEvent.timestamp).Pairwise (· < ·))
    (elast : StreamEvent) (hl : l.getLast? = some elast)
    (e : StreamEvent) (he : e ∈ l) : e.timestamp ≤ elast.timestamp := by
  induction l with
  | nil => simp at he
  | cons a l ih =>
    simp only [List.map_cons] at hs
    cases l with
    | nil =>
      have h1 : a = elast := by simpa using hl
      have h2 : e = a := by simpa using he
      rw [h2, h1]
    | cons b l' =>
      rw [List.getLast?_cons_cons] at hl
      rcases List.mem_cons.mp he with rfl | he'
      · have hmm : elast ∈ b :: l' := getLast?_mem_own _ _ hl
        have hlt := (List.pairwise_cons.mp hs).1 elast.timestamp
          (List.mem_map.mpr ⟨elast, hmm, rfl⟩)
        exact le_of_lt hlt
      · exact ih (List.pairwise_cons.mp hs).2 hl he'

theorem pollInv_append (st : PollState) (t : ℚ) (d : EventData)
    (hinv : PollInv st) (h0 : 0 < t)
    (hgt : ∀ e ∈ st.stream.events, e.timestamp < t) :
    PollInv (stepPoll st (.append t d)) ∧
    (stepPoll st (.append t d)).delivered ++
        ((stepPoll st (.append t d)).stream.get_events_since
          (stepPoll st (.append t d)).cursor).1
      = st.delivered ++ (st.stream.get_events_since st.cursor).1 ++ [d] := by
  obtain ⟨done, pending, hsplit, hdel, hdone, hpend⟩ := hinv.log_split
  have hcur_lt : st.cursor < t := by
    rcases hinv.cursor_src with h | h
    · rw [h]; exact h0
    · obtain ⟨e, he, heq⟩ := List.mem_map.mp h
      rw [← heq]; exact hgt e he
  constructor
  · refine ⟨⟨done, pending ++ [{ timestamp := t, data := d }], ?_, ?_, ?_, ?_⟩,
      ?_, ?_⟩
    · simp [stepPoll, ActiveStream.add_event, hsplit]
    · exact hdel
    · exact hdone
    · intro e he
      rcases List.mem_append.mp he with he | he
      · exact hpend e he
      · have heq : e = { timestamp := t, data := d } := by simpa using he
        rw [heq]; exact hcur_lt
    · simp only [stepPoll, ActiveStream.add_event, List.map_append,
        List.map_cons, List.map_nil]
      rw [List.pairwise_append]
      refine ⟨hinv.sorted, by simp, ?_⟩
      intro a ha b hb
      have hb' : b = t := by simpa using hb
      obtain ⟨e, he, heq⟩ := List.mem_map.mp ha
      rw [hb', ← heq]
      exact hgt e he
    · rcases hinv.cursor_src with h | h
      · exact Or.inl h
      · refine Or.inr ?_
        simp only [stepPoll, ActiveStream.add_event, List.map_append]
        exact List.mem_append.mpr (Or.inl h)
  · simp [stepPoll, ActiveStream.add_event, ActiveStream.get_events_since,
      List.filter_append, List.filter_cons, hcur_lt]

theorem pollInv_poll (st : PollState) (hinv : PollInv st) :
    PollInv (stepPoll st .poll) ∧
    (stepPoll st .poll).delivered ++
        ((stepPoll st .poll).stream.get_events_since
          (stepPoll st .poll).cursor).1
      = st.delivered ++ (st.stream.get_events_since st.cursor).1 := by
  obtain ⟨done, pending, hsplit, hdel, hdone, hpend⟩ := hinv.log_split
  have hfilter : st.stream.events.filter
      (fun e => decide (st.cursor < e.timestamp)) = pending := by
    rw [hsplit, List.filter_append, filter_decide_eq_nil done st.cursor hdone,
      filter_decide_eq_self pending st.cursor hpend, List.nil_append]
  by_cases hev : st.stream.events = []
  · have hcur' : (st.stream.get_events_since st.cursor).2 = st.cursor := by
      simp [ActiveStream.get_events_since, hev]
    have hpend' : (st.stream.get_events_since st.cursor).1 = [] := by
      simp [ActiveStream.get_events_since, hev]
    obtain ⟨hd, hp⟩ := List.append_eq_nil.mp (hsplit.symm.trans hev)
    constructor
    · refine ⟨⟨[], [], by simp [stepPoll, hev], ?_, by simp, by simp⟩,
        ?_, ?_⟩
      · show st.delivered ++ (st.stream.get_events_since st.cursor).1 = []
        rw [hpend', List.append_nil, hdel, hd]
        simp
      · show (st.stream.events.map StreamEvent.timestamp).Pairwise (· < ·)
        exact hinv.sorted
      · show (st.stream.get_events_since st.cursor).2 = 0 ∨
            (st.stream.get_events_since st.cursor).2 ∈
              List.map StreamEvent.timestamp st.stream.events
        rw [hcur']
        exact hinv.cursor_src
    · show (st.delivered ++ (st.stream.get_events_since st.cursor).1) ++
          (st.stream.get_events_since ((st.stream.get_events_since
            st.cursor).2)).1
        = st.delivered ++ (st.stream.get_events_since st.cursor).1
      rw [hcur', hpend']
      simp [ActiveStream.get_events_since, hev]
  · obtain ⟨elast, hlast⟩ := getLast?_some_of_ne_nil st.stream.events hev
    have hnc : (st.stream.get_events_since st.cursor).2 = elast.timestamp := by
      simp [ActiveStream.get_events_since, hlast]
    have hle : ∀ e ∈ st.stream.events, e.timestamp ≤ elast.timestamp :=
      fun e he => timestamps_le_getLast _ hinv.sorted elast hlast e he
    have hdeliv : st.delivered ++ (st.stream.get_events_since st.cursor).1
        = st.stream.events.map StreamEvent.data := by
      show st.delivered ++ (st.stream.events.filter
          (fun e => decide (st.cursor < e.timestamp))).map StreamEvent.data = _
      rw [hfilter, hdel, hsplit, List.map_append]
    have hrepoll : (st.stream.get_events_since
        ((st.stream.get_events_since st.cursor).2)).1 = [] := by
      show (st.stream.events.filter (fun e =>
          decide ((st.stream.get_events_since st.cursor).2
            < e.timestamp))).map StreamEvent.data = []
      rw [hnc, filter_decide_eq_nil _ _ hle]
      rfl
    constructor
    · refine ⟨⟨st.stream.events, [], by simp [stepPoll], hdeliv, ?_, by simp⟩,
        ?_, ?_⟩
      · intro e he
        show e.timestamp ≤ (st.stream.get_events_since st.cursor).2
        rw [hnc]
        exact hle e he
      · show (st.stream.events.map StreamEvent.timestamp).Pairwise (· < ·)
        exact hinv.sorted
      · refine Or.inr ?_
        show (st.stream.get_events_since st.cursor).2 ∈ _
        rw [hnc]
        exact List.mem_map.mpr ⟨elast, getLast?_mem_own _ _ hlast, rfl⟩
    · show (st.delivered ++ (st.stream.get_events_since st.cursor).1) ++
          (st.stream.get_events_since ((st.stream.get_events_since
            st.cursor).2)).1
        = st.delivered ++ (st.stream.get_events_since st.cursor).1
      rw [hrepoll, List.append_nil]

theorem runPoll_spec (ops : List PollOp) (st : PollState)
    (hinv : PollInv st)
    (hfut : ∀ t ∈ appendTimes ops, 0 < t ∧
      ∀ e ∈ st.stream.events, e.timestamp < t)
    (hord : (appendTimes ops).Pairwise (· < ·)) :
    PollInv (runPoll st ops) ∧
    (runPoll st ops).delivered ++
        ((runPoll st ops).stream.get_events_since (runPoll st ops).cursor).1
      = st.delivered ++ (st.stream.get_events_since st.cursor).1
          ++ appendDatas ops := by
  induction ops generalizing st with
  | nil => exact ⟨hinv, by simp [runPoll, appendDatas]⟩
  | cons op ops ih =>
    cases op with
    | append t d =>
      obtain ⟨h0, hgt⟩ := hfut t (by simp [appendTimes])
      obtain ⟨hinv', heq'⟩ := pollInv_append st t d hinv h0 hgt
      have hord' := hord
      simp only [appendTimes] at hord'
      have hordtl : (appendTimes ops).Pairwise (· < ·) :=
        (List.pairwise_cons.mp hord').2
      have hfut' : ∀ u ∈ appendTimes ops, 0 < u ∧
          ∀ e ∈ (stepPoll st (.append t d)).stream.events,
            e.timestamp < u := by
        intro u hu
        obtain ⟨hu0, hue⟩ := hfut u (by simp [appendTimes, hu])
        refine ⟨hu0, ?_⟩
        intro e he
        simp only [stepPoll, ActiveStream.add_event] at he
        rcases List.mem_append.mp he with he | he
        · exact hue e he
        · have heq : e = { timestamp := t, data := d } := by simpa using he
          rw [heq]
          exact (List.pairwise_cons.mp hord').1 u hu
      obtain ⟨hfin, heqf⟩ := ih (stepPoll st (.append t d)) hinv' hfut' hordtl
      refine ⟨hfin, ?_⟩
      show (runPoll (stepPoll st (.append t d)) ops).delivered ++
          ((runPoll (stepPoll st (.append t d)) ops).stream.get_events_since
            (runPoll (stepPoll st (.append t d)) ops).cursor).1
        = st.delivered ++ (st.stream.get_events_since st.cursor).1
            ++ appendDatas (PollOp.append t d :: ops)
      rw [heqf, heq']
      simp [appendDatas]
    | poll =>
      obtain ⟨hinv', heq'⟩ := pollInv_poll st hinv
      have hfut' : ∀ u ∈ appendTimes ops, 0 < u ∧
          ∀ e ∈ (stepPoll st .poll).stream.events, e.timestamp < u := by
        intro u hu
        obtain ⟨hu0, hue⟩ := hfut u (by simpa [appendTimes] using hu)
        exact ⟨hu0, fun e he => hue e he⟩
      have hordtl : (appendTimes ops).Pairwise (· < ·) := by
        simpa [appendTimes] using hord
      obtain ⟨hfin, heqf⟩ := ih (stepPoll st .poll) hinv' hfut' hordtl
      refine ⟨hfin, ?_⟩
      show (runPoll (stepPoll st .poll) ops).delivered ++
          ((runPoll (stepPoll st .poll) ops).stream.get_events_since
            (runPoll (stepPoll st .poll) ops).cursor).1
        = st.delivered ++ (st.stream.get_events_since st.cursor).1
            ++ appendDatas (PollOp.poll :: ops)
      rw [heqf, heq']
      simp [appendDatas]

/-- Claim C1: for every append/poll trace against a fresh stream whose append
timestamps are pairwise distinct (with a monotone clock and the default
cursor 0 this means strictly increasing and positive), everything delivered so
far followed by one catch-up poll is exactly the appended payloads in append
order — each event exactly once, no gaps, no duplicates; an immediate re-poll
with the returned cursor delivers nothing; and the returned cursor is the last
stored event's timestamp, or the unchanged input cursor on an empty log. -/
theorem cursor_pagination_exactly_once (eid cid pid : String) (tC : ℚ)
    (ops : List PollOp)
    (hts : (0 :: appendTimes ops).Pairwise (· < ·)) :
    (runPollFrom eid cid pid tC ops).delivered ++
        ((runPollFrom eid cid pid tC ops).stream.get_events_since
          (runPollFrom eid cid pid tC ops).cursor).1
      = appendDatas ops ∧
    ((runPollFrom eid cid pid tC ops).stream.get_events_since
        (((runPollFrom eid cid pid tC ops).stream.get_events_since
          (runPollFrom eid cid pid tC ops).cursor).2)).1 = [] ∧
    ((runPollFrom eid cid pid tC ops).stream.events = [] →
      ((runPollFrom eid cid pid tC ops).stream.get_events_since
        (runPollFrom eid cid pid tC ops).cursor).2
        = (runPollFrom eid cid pid tC ops).cursor) ∧
    (∀ e, (runPollFrom eid cid pid tC ops).stream.events.getLast? = some e →
      ((runPollFrom eid cid pid tC ops).stream.get_events_since
        (runPollFrom eid cid pid tC ops).cursor).2 = e.timestamp) := by
  have hinv0 : PollInv { stream := newActiveStream eid cid pid tC, cursor := 0, delivered := [] } := by
    refine ⟨⟨[], [], ?_, rfl, ?_, ?_⟩, ?_, Or.inl rfl⟩
    · simp [newActiveStream]
    · intro e he; simp at he
    · intro e he; simp at he
    · simp [newActiveStream]
  have hfut0 : ∀ t ∈ appendTimes ops, 0 < t ∧
      ∀ e ∈ (newActiveStream eid cid pid tC).events, e.timestamp < t := by
    intro t ht
    refine ⟨(List.pairwise_cons.mp hts).1 t ht, ?_⟩
    intro e he
    simp [newActiveStream] at he
  obtain ⟨hfin, heq⟩ := runPoll_spec ops _ hinv0 hfut0
    (List.pairwise_cons.mp hts).2
  have hmain : (runPollFrom eid cid pid tC ops).delivered ++
      ((runPollFrom eid cid pid tC ops).stream.get_events_since
        (runPollFrom eid cid pid tC ops).cursor).1 = appendDatas ops := by
    have h := heq
    simpa [runPollFrom, newActiveStream, ActiveStream.get_events_since] using h
  refine ⟨hmain, ?_, ?_, ?_⟩
  · obtain ⟨_, heq2⟩ := pollInv_poll (runPollFrom eid cid pid tC ops) hfin
    have h2 : ((runPollFrom eid cid pid tC ops).delivered ++
          ((runPollFrom eid cid pid tC ops).stream.get_events_since
            (runPollFrom eid cid pid tC ops).cursor).1) ++
        ((runPollFrom eid cid pid tC ops).stream.get_events_since
          (((runPollFrom eid cid pid tC ops).stream.get_events_since
            (runPollFrom eid cid pid tC ops).cursor).2)).1
        = (runPollFrom eid cid pid tC ops).delivered ++
            ((runPollFrom eid cid pid tC ops).stream.get_events_since
              (runPollFrom eid cid pid tC ops).cursor).1 := heq2
    have hlen := congrArg List.length h2
    simp only [List.length_append] at hlen
    have hzero : (((runPollFrom eid cid pid tC ops).stream.get_events_since
        (((runPollFrom eid cid pid tC ops).stream.get_events_since
          (runPollFrom eid cid pid tC ops).cursor).2)).1).length = 0 := by
      omega
    exact List.length_eq_zero.mp hzero
  · intro h
    simp [ActiveStream.get_events_since, h]
  · intro e he
    simp [ActiveStream.get_events_since, he]

/-- The trace used by the claim C1 witness: interleaved appends and polls at
strictly increasing positive timestamps. -/
def demoPollOps : List PollOp :=
  [.append 1 (.agent "a"), .poll, .append 2 (.agent "b"),
   .append 3 (.agent "x"), .poll, .poll]

/-- Claim C1 witness: running the demonstration trace delivers exactly the
appended payloads in order after the final catch-up poll. -/
theorem cursor_pagination_exactly_once_witness :
    (runPollFrom "e" "c" "p" 0 demoPollOps).delivered ++
        ((runPollFrom "e" "c" "p" 0 demoPollOps).stream.get_events_since
          (runPollFrom "e" "c" "p" 0 demoPollOps).cursor).1
      = appendDatas demoPollOps :=
  (cursor_pagination_exactly_once "e" "c" "p" 0 demoPollOps (by decide)).1
